import Mathlib

/-!
Verification of the asynchronous task-processing and caching subsystem of the
Mouse platform (api-gateway): a shallow embedding of
`api-gateway/cache_manager.py` and `api-gateway/async_queue.py` together with
theorems settling the specification claims about them.

Conventions of the embedding:
* Python `dict` objects become insertion-ordered association lists
  (`List (String × v)`); assignment replaces in place or appends, deletion
  removes the (unique) binding.
* Python values that may be `None` are `Option`-typed; `Option.none` is the
  Python `None`.
* `time.time()` is an explicit `now : Int` argument threaded through the
  operations (the code only ever compares differences of timestamps).
* `async` methods become pure state-passing functions; the lock discipline of
  the source serialises each operation, so an operation is one atomic step.
-/

namespace MousePlatform

/-! ## Python dict model -/

/-- Lookup in an insertion-ordered Python dict (`d.get(k)`). -/
def dictGet {v : Type} (d : List (String × v)) (k : String) : Option v :=
  match d with
  | [] => none
  | (k0, v0) :: rest => if k0 = k then some v0 else dictGet rest k

/-- Assignment `d[k] = x` in a Python dict: replace in place if the key is
present, else append at the end (insertion order). -/
def dictSet {v : Type} (d : List (String × v)) (k : String) (x : v) :
    List (String × v) :=
  match d with
  | [] => [(k, x)]
  | (k0, v0) :: rest =>
      if k0 = k then (k0, x) :: rest else (k0, v0) :: dictSet rest k x

/-- Deletion `del d[k]` in a Python dict: remove the first (hence, for a dict,
the only) binding of `k`. -/
def dictDel {v : Type} (d : List (String × v)) (k : String) :
    List (String × v) :=
  match d with
  | [] => []
  | (k0, v0) :: rest =>
      if k0 = k then rest else (k0, v0) :: dictDel rest k

/-! ## cache_manager.py: CacheEntry and CacheManager -/

/-- Embedding of `CacheEntry` (cache_manager.py lines 15-34).  `value` is
`Option a` because the stored Python object may itself be `None`. -/
structure CacheEntry (a : Type) where
  value : Option a
  created_at : Int
  ttl_seconds : Int
  access_count : Nat
  last_accessed : Int
deriving DecidableEq

/-- Construction of a `CacheEntry` as done by `CacheManager.set`: the
dataclass `__post_init__` defaults `last_accessed` to `created_at` and
`access_count` to 0. -/
def mkCacheEntry {a : Type} (value : Option a) (created_at ttl : Int) :
    CacheEntry a :=
  { value := value, created_at := created_at, ttl_seconds := ttl,
    access_count := 0, last_accessed := created_at }

/-- Embedding of the `is_expired` property: `time.time() - created_at >
ttl_seconds`, with the current time passed explicitly. -/
def isExpired {a : Type} (now : Int) (e : CacheEntry a) : Bool :=
  now - e.created_at > e.ttl_seconds

/-- Embedding of the mutable fields of `CacheManager` (cache_manager.py
lines 37-48) that the claims concern: the key→entry dict, the TTL/size
configuration and the hit/miss counters. -/
structure CacheState (a : Type) where
  cache : List (String × CacheEntry a)
  default_ttl : Int
  max_size : Nat
  hits : Nat
  misses : Nat
deriving DecidableEq

/-- Embedding of `CacheManager.get` (lines 71-90): a missing entry is a miss;
an expired entry is deleted and is a miss; otherwise the access stats are
updated, a hit is recorded and the stored value is returned.  The returned
`Option a` is the Python return value, so a stored `None` and a miss both
come out as `none`. -/
def CacheState.get {a : Type} (s : CacheState a) (key : String) (now : Int) :
    Option a × CacheState a :=
  match dictGet s.cache key with
  | none => (none, { s with misses := s.misses + 1 })
  | some e =>
      if isExpired now e then
        (none, { s with cache := dictDel s.cache key, misses := s.misses + 1 })
      else
        (e.value,
          { s with
            cache := dictSet s.cache key
              { e with access_count := e.access_count + 1,
                       last_accessed := now },
            hits := s.hits + 1 })

/-- Embedding of `ttl = ttl or self.default_ttl` (line 94): Python `or`
falls through to the default when the argument is `None` or the falsy `0`. -/
def pyTtl (ttl : Option Int) (dflt : Int) : Int :=
  match ttl with
  | none => dflt
  | some t => if t = 0 then dflt else t

/-- Number of entries `_evict_lru` removes: `int(len * 0.1) or 1`
(line 140), i.e. a tenth of the current size, with minimum 1. -/
def toRemoveCount (n : Nat) : Nat :=
  if n / 10 = 0 then 1 else n / 10

/-- Comparison used to sort entries for eviction: ascending `last_accessed`
(lines 135-138). -/
def lruLe {a : Type} (p q : String × CacheEntry a) : Bool :=
  p.2.last_accessed ≤ q.2.last_accessed

/-- Keys selected for eviction by `_evict_lru`: the first
`toRemoveCount` keys of the entries sorted by `last_accessed` ascending. -/
def victimKeys {a : Type} (cache : List (String × CacheEntry a)) :
    List String :=
  ((cache.mergeSort lruLe).take (toRemoveCount cache.length)).map Prod.fst

/-- Embedding of `CacheManager._evict_lru` (lines 129-142): sort the entries
by `last_accessed` ascending and delete the oldest tenth (minimum one) from
the dict. -/
def evictLru {a : Type} (cache : List (String × CacheEntry a)) :
    List (String × CacheEntry a) :=
  if cache.isEmpty then cache
  else cache.filter (fun p => !((victimKeys cache).contains p.1))

/-- Embedding of `CacheManager.set` (lines 92-106): resolve the TTL, evict if
the store is at capacity, then insert a fresh entry (resetting
`created_at`). -/
def CacheState.set {a : Type} (s : CacheState a) (key : String)
    (v : Option a) (ttl : Option Int) (now : Int) : CacheState a :=
  let t := pyTtl ttl s.default_ttl
  let c1 := if s.max_size ≤ s.cache.length then evictLru s.cache else s.cache
  { s with cache := dictSet c1 key (mkCacheEntry v now t) }

/-- Embedding of `CacheManager.get_or_set` (lines 116-127): return the cached
value if `get` produced something not `None`; otherwise invoke the factory,
store its result and return it. -/
def CacheState.getOrSet {a : Type} (s : CacheState a) (key : String)
    (factory : Unit → Option a) (ttl : Option Int) (now : Int) :
    Option a × CacheState a :=
  match s.get key now with
  | (some v, s1) => (some v, s1)
  | (none, s1) =>
      let v := factory ()
      (v, s1.set key v ttl now)

/-! ## async_queue.py: TaskPriority, AsyncTaskQueue -/

/-- Embedding of the `TaskPriority` enum (async_queue.py lines 13-16). -/
inductive TaskPriority
  | HIGH
  | NORMAL
  | LOW
deriving DecidableEq

/-- Numeric value of a priority (`priority.value`): HIGH = 1, NORMAL = 2,
LOW = 3; smaller is more urgent. -/
def TaskPriority.val : TaskPriority → Int
  | .HIGH => 1
  | .NORMAL => 2
  | .LOW => 3

/-- Embedding of the task-id generation of `AsyncTaskQueue.submit` (line 45):
`task_id = f"task_{datetime.utcnow().timestamp()}_{id(payload)}"`.  The
wall-clock timestamp rendering and the CPython object address are
environment inputs, passed in as the strings they are formatted to. -/
def taskIdString (ts payloadAddr : String) : String :=
  "task_" ++ ts ++ "_" ++ payloadAddr

/-- Embedding of the task dict built by `AsyncTaskQueue.submit`
(lines 47-54), together with the mutable fields the worker loop adds on
failure (`retries`, `error`; absent keys read as `retries = 0`,
`error = none`).  `p` is the payload type. -/
structure QTask (p : Type) where
  id : String
  type : String
  payload : p
  priority : Int
  submitted_at : String
  delay_ms : Int
  retries : Nat
  error : Option String
deriving DecidableEq

/-- An element of the `asyncio.PriorityQueue`: the tuple
`(priority, task_id, task)` of line 58. -/
abbrev QEntry (p : Type) := Int × String × QTask p

/-- Lexicographic code-point comparison of character lists, as Python
compares strings. -/
def charListLe : List Char → List Char → Bool
  | [], _ => true
  | _ :: _, [] => false
  | c :: cs, d :: ds =>
      if c < d then true else if d < c then false else charListLe cs ds

/-- Python string comparison `a <= b`: lexicographic by code point. -/
def strLe (a b : String) : Bool :=
  charListLe a.data b.data

/-- Heap order on queue entries: Python compares the tuples
lexicographically, so first the numeric priority, then the `task_id`
string. -/
def entryLE {p : Type} (x y : QEntry p) : Bool :=
  decide (x.1 < y.1) || (decide (x.1 = y.1) && strLe x.2.1 y.2.1)

/-- Least entry of the queue contents with respect to the heap order (what
`queue.get()` will deliver next); the leftmost entry wins exact ties. -/
def minEntry {p : Type} : List (QEntry p) → Option (QEntry p)
  | [] => none
  | e :: rest =>
      match minEntry rest with
      | none => some e
      | some m => some (if entryLE e m then e else m)

/-- Mutable queue state of `AsyncTaskQueue` relevant to the claims: the
priority-queue contents and the counters of `self.metrics`. -/
structure QueueState (p : Type) where
  queue : List (QEntry p)
  tasks_submitted : Nat
  tasks_completed : Nat
  tasks_failed : Nat
deriving DecidableEq

/-- Embedding of `AsyncTaskQueue.submit` (lines 41-63): build the task dict,
put `(priority.value, task_id, task)` on the priority queue, bump the
submission metric and return the task id.  `ts` and `payloadAddr` are the
environment inputs of the id format string. -/
def QueueState.submit {p : Type} (s : QueueState p) (task_type : String)
    (payload : p) (prio : TaskPriority) (delay_ms : Int)
    (ts payloadAddr : String) : String × QueueState p :=
  let task_id := taskIdString ts payloadAddr
  let task : QTask p :=
    { id := task_id, type := task_type, payload := payload,
      priority := prio.val, submitted_at := ts, delay_ms := delay_ms,
      retries := 0, error := none }
  (task_id,
    { s with queue := s.queue ++ [(prio.val, task_id, task)],
             tasks_submitted := s.tasks_submitted + 1 })

/-- Embedding of the failure branch of `AsyncTaskQueue._worker_loop`
(lines 113-123): after the failure metric is bumped, a task with
`retries < 3` is re-enqueued with `retries + 1`, the error message recorded,
and the tuple priority demoted by one step; otherwise it is dropped
(`none`). -/
def handleFailure {p : Type} (msg : String) (e : QEntry p) :
    Option (QEntry p) :=
  let (priority, task_id, task) := e
  if task.retries < 3 then
    some (priority + 1, task_id,
      { task with retries := task.retries + 1, error := some msg })
  else
    none

/-- Metric update of the failure branch (lines 114-115): only
`tasks_failed` is incremented. -/
def failMetric {p : Type} (s : QueueState p) : QueueState p :=
  { s with tasks_failed := s.tasks_failed + 1 }

/-- Attempt trace of a task whose handler fails on every attempt: the list
of queue entries under which the handler is invoked, following the
re-enqueue rule of the worker loop until the task is dropped. -/
def failTrace {p : Type} (msg : String) (e : QEntry p) : List (QEntry p) :=
  if h : e.2.2.retries < 3 then
    e :: failTrace msg (e.1 + 1, e.2.1,
      { e.2.2 with retries := e.2.2.retries + 1, error := some msg })
  else
    [e]
termination_by 4 - e.2.2.retries
decreasing_by omega

/-! ## async_queue.py: PaymentQueue -/

/-- Truthiness of an optional Python string: `None` and the empty string are
falsy. -/
def strTruthy : Option String → Bool
  | none => false
  | some s => !(s == "")

/-- Embedding of `event_data.get("id") or event_data.get("session_id")`
(line 176): Python `or` yields the first operand when truthy, else the
second. -/
def pyOrStr (x y : Option String) : Option String :=
  if strTruthy x then x else y

/-- Addition to the `processed_ids` Python set, viewed in iteration order.
A CPython set has no insertion order: a newly added element lands at a
hash-determined slot, so its position in the iteration order is arbitrary;
the model makes that position an explicit `pos` argument.  Adding a present
element changes nothing. -/
def setAdd {k : Type} [DecidableEq k] (pos : Nat) (key : k) (seen : List k) :
    List k :=
  if key ∈ seen then seen else seen.take pos ++ key :: seen.drop pos

/-- Embedding of `PaymentQueue.mark_processed` (lines 165-171) at the
registry level: add the key to the set, then, if the set exceeds 10,000
elements, replace it by the last 5,000 elements of its iteration order
(`set(list(self.processed_ids)[-5000:])`). -/
def registryAdd {k : Type} [DecidableEq k] (pos : Nat) (key : k)
    (seen : List k) : List k :=
  let s1 := setAdd pos key seen
  if s1.length > 10000 then s1.drop (s1.length - 5000) else s1

/-- Payload of a payment task: the event dict, of which `submit_payment`
reads the optional string fields `"id"` and `"session_id"`. -/
structure PaymentEvent where
  id : Option String
  session_id : Option String
deriving DecidableEq

/-- Mutable state of `PaymentQueue` (lines 152-158): the inherited queue
state plus the `processed_ids` registry in iteration order. -/
structure PQState extends QueueState PaymentEvent where
  seen : List String
deriving DecidableEq

/-- Embedding of `PaymentQueue.is_processed` (lines 160-163). -/
def isProcessedO (payment_id : Option String) (s : PQState) : Bool :=
  match payment_id with
  | some key => s.seen.contains key
  | none => false

/-- Embedding of `PaymentQueue.mark_processed` on the queue state; `pos` is
the hash-determined iteration-order position of the new key (see
`setAdd`). -/
def markProcessed (pos : Nat) (key : String) (s : PQState) : PQState :=
  { s with seen := registryAdd pos key s.seen }

/-- `mark_processed` lifted to the optional payment id (only ever reached
with a truthy id in the source; `none` is the identity). -/
def markProcessedO (pos : Nat) (payment_id : Option String) (s : PQState) :
    PQState :=
  match payment_id with
  | some key => markProcessed pos key s
  | none => s

/-- Submission on the payment queue state, inherited from
`AsyncTaskQueue.submit`. -/
def PQState.submitQ (s : PQState) (task_type : String)
    (payload : PaymentEvent) (prio : TaskPriority) (ts payloadAddr : String) :
    String × PQState :=
  let r := s.toQueueState.submit task_type payload prio 0 ts payloadAddr
  (r.1, { toQueueState := r.2, seen := s.seen })

/-- Embedding of `PaymentQueue.submit_payment` (lines 173-189): extract the
payment id with Python-`or` semantics; if it is truthy and already in the
registry, return `None` without enqueueing; otherwise mark a truthy id as
processed first, then submit a task of type `"payment_" ++ payment_type`
with the event as payload. -/
def submitPayment (s : PQState) (payment_type : String) (ed : PaymentEvent)
    (prio : TaskPriority) (pos : Nat) (ts payloadAddr : String) :
    Option String × PQState :=
  let payment_id := pyOrStr ed.id ed.session_id
  if strTruthy payment_id && isProcessedO payment_id s then
    (none, s)
  else
    let s1 := if strTruthy payment_id then markProcessedO pos payment_id s
              else s
    let r := s1.submitQ ("payment_" ++ payment_type) ed prio ts payloadAddr
    (some r.1, r.2)

/-! ## Operational model of the worker pool and `stop`

The interleaving of the worker coroutines of `_worker_loop` (lines 85-128)
with `stop` (lines 76-83) is modelled as a labelled transition system.
Each worker is at one of four control points of the loop body; `stop` is
two steps, the synchronous `self.running = False` and the return of
`asyncio.gather`, which is enabled once every worker coroutine has
terminated. -/

/-- Control point of one worker coroutine in `_worker_loop`. -/
inductive WStatus (p : Type)
  | check
  | getting
  | processing (e : QEntry p)
  | done
deriving DecidableEq

/-- Global state of the worker pool, the shared queue and the stop flags. -/
structure SysState (p : Type) where
  running : Bool
  queue : List (QEntry p)
  workers : List (WStatus p)
  stopCalled : Bool
  stopReturned : Bool
deriving DecidableEq

/-- Observable events of system steps. -/
inductive Label (p : Type)
  | loopEnter (i : Nat)
  | loopExit (i : Nat)
  | handlerBegin (i : Nat) (e : QEntry p)
  | handlerOk (i : Nat) (e : QEntry p)
  | handlerFail (i : Nat) (e : QEntry p) (msg : String)
  | getTimeout (i : Nat)
  | stopCall
  | stopReturn
deriving DecidableEq

/-- Remove the first occurrence of an entry from the queue contents (the
effect of `queue.get()` delivering that entry). -/
def removeEntry {p : Type} [DecidableEq p] :
    List (QEntry p) → QEntry p → List (QEntry p)
  | [], _ => []
  | x :: rest, e => if x = e then rest else x :: removeEntry rest e

/-- One interleaved step of the system.  Worker `i` follows the control flow
of `_worker_loop`: at the top of the loop it re-enters when `running` is
still true and exits otherwise; waiting on `queue.get()` it either receives
the least entry of the heap and begins the handler, or times out and goes
back to the loop check; a running handler ends in success or in failure,
failure re-enqueueing per `handleFailure`.  `stop` sets `running := False`
once, and returns once every worker has exited. -/
inductive SysStep {p : Type} [DecidableEq p] :
    SysState p → Label p → SysState p → Prop
  | loop_run (s : SysState p) (i : Nat)
      (hw : s.workers[i]? = some .check) (hr : s.running = true) :
      SysStep s (.loopEnter i) { s with workers := s.workers.set i .getting }
  | loop_stop (s : SysState p) (i : Nat)
      (hw : s.workers[i]? = some .check) (hr : s.running = false) :
      SysStep s (.loopExit i) { s with workers := s.workers.set i .done }
  | dequeue (s : SysState p) (i : Nat) (e : QEntry p)
      (hw : s.workers[i]? = some .getting) (hq : minEntry s.queue = some e) :
      SysStep s (.handlerBegin i e)
        { s with workers := s.workers.set i (.processing e),
                 queue := removeEntry s.queue e }
  | get_timeout (s : SysState p) (i : Nat)
      (hw : s.workers[i]? = some .getting) :
      SysStep s (.getTimeout i) { s with workers := s.workers.set i .check }
  | finish_ok (s : SysState p) (i : Nat) (e : QEntry p)
      (hw : s.workers[i]? = some (.processing e)) :
      SysStep s (.handlerOk i e) { s with workers := s.workers.set i .check }
  | finish_fail (s : SysState p) (i : Nat) (e : QEntry p) (msg : String)
      (hw : s.workers[i]? = some (.processing e)) :
      SysStep s (.handlerFail i e msg)
        { s with workers := s.workers.set i .check,
                 queue := s.queue ++ (handleFailure msg e).toList }
  | stop_call (s : SysState p) (hc : s.stopCalled = false) :
      SysStep s .stopCall { s with running := false, stopCalled := true }
  | stop_ret (s : SysState p) (hc : s.stopCalled = true)
      (hnr : s.stopReturned = false)
      (hall : ∀ w ∈ s.workers, w = WStatus.done) :
      SysStep s .stopReturn { s with stopReturned := true }

/-- Finite runs of the system: a trace of labels between two states. -/
inductive SysSteps {p : Type} [DecidableEq p] :
    SysState p → List (Label p) → SysState p → Prop
  | nil (s : SysState p) : SysSteps s [] s
  | cons {s s1 s2 : SysState p} {l : Label p} {ls : List (Label p)}
      (hstep : SysStep s l s1) (hrest : SysSteps s1 ls s2) :
      SysSteps s (l :: ls) s2

/-- Labels that mark the start of a handler invocation. -/
def isBegin {p : Type} : Label p → Bool
  | .handlerBegin _ _ => true
  | _ => false

/-- Labels that mark the completion (successful or failed) of a handler
invocation. -/
def isEnd {p : Type} : Label p → Bool
  | .handlerOk _ _ => true
  | .handlerFail _ _ _ => true
  | _ => false

/-- Whether a worker is currently inside a handler invocation. -/
def isProcW {p : Type} : WStatus p → Bool
  | .processing _ => true
  | _ => false

/-- Number of workers currently inside a handler invocation. -/
def numProcessing {p : Type} (ws : List (WStatus p)) : Nat :=
  ws.countP isProcW

/-! ## cache_manager.py: ScreenshotCache compression -/

/-- Quality tier table of `_compress_screenshot` (lines 243-249):
`(width, height, jpeg_quality)`, defaulting to the medium tier. -/
def qualitySettings (quality : String) : Int × Int × Int :=
  if quality = "low" then (640, 480, 60)
  else if quality = "medium" then (1024, 768, 75)
  else if quality = "high" then (1920, 1080, 85)
  else (1024, 768, 75)

/-- Size threshold below which screenshots are not compressed
(`100 * 1024`, line 224). -/
def compressionThreshold : Nat := 100 * 1024

/-- Embedding of `ScreenshotCache._compress_screenshot` (lines 226-264).
The base64 decoder and the PIL pipeline (open, thumbnail to the tier's
dimensions, convert, JPEG-encode, base64-encode) are external library
calls; they enter the model as explicit fallible functions, `Except`-valued
because each may raise.  The enclosing `try` block returns the original
string on any failure; an image strictly below the size threshold is
returned untouched. -/
def compressScreenshot
    (b64decode : String → Except String (List UInt8))
    (transform : List UInt8 → Int × Int × Int → Except String String)
    (base64_data : String) (quality : String) : String :=
  match b64decode base64_data with
  | .error _ => base64_data
  | .ok img_data =>
      if img_data.length < compressionThreshold then base64_data
      else
        match transform img_data (qualitySettings quality) with
        | .error _ => base64_data
        | .ok out => out

/-! ## Basic lemmas about the dict model -/

theorem dictGet_dictSet_self {v : Type} (d : List (String × v)) (k : String)
    (x : v) : dictGet (dictSet d k x) k = some x := by
  induction d with
  | nil => simp [dictSet, dictGet]
  | cons hd tl ih =>
      by_cases h : hd.1 = k
      · simp [dictSet, dictGet, h]
      · simpa [dictSet, dictGet, h] using ih

/-! ## Claim C8 -/

/-- C8: a value whose decoded size is under the 100 KB compression threshold
is returned byte-identical by `_compress_screenshot`, and any failure of the
decode or of the lossy transform makes the function fall back to the
original uncompressed value, so the cache write never fails because of
compression. -/
theorem c8_compress_passthrough_and_fallback
    (b64decode : String → Except String (List UInt8))
    (transform : List UInt8 → Int × Int × Int → Except String String)
    (data quality : String) :
    (∀ bs, b64decode data = .ok bs → bs.length < compressionThreshold →
        compressScreenshot b64decode transform data quality = data) ∧
    (∀ msg, b64decode data = .error msg →
        compressScreenshot b64decode transform data quality = data) ∧
    (∀ bs msg, b64decode data = .ok bs →
        transform bs (qualitySettings quality) = .error msg →
        compressScreenshot b64decode transform data quality = data) := by
  refine ⟨?_, ?_, ?_⟩
  · intro bs hok hlen
    simp [compressScreenshot, hok, hlen]
  · intro msg herr
    simp [compressScreenshot, herr]
  · intro bs msg hok htr
    by_cases hlen : bs.length < compressionThreshold
    · simp [compressScreenshot, hok, hlen]
    · simp [compressScreenshot, hok, hlen, htr]

/-- Witness for C8 at concrete inputs: a 5-byte image passes through
untouched, and a decoder failure and a transform failure both fall back to
the original string. -/
theorem c8_compress_witness :
    compressScreenshot (fun _ => Except.ok (List.replicate 5 (0 : UInt8)))
        (fun _ _ => Except.error "pil boom") "imgdata" "medium" = "imgdata" ∧
    compressScreenshot (fun _ => Except.error "bad base64")
        (fun _ _ => Except.ok "out") "imgdata" "low" = "imgdata" ∧
    compressScreenshot
        (fun _ => Except.ok (List.replicate 200000 (0 : UInt8)))
        (fun _ _ => Except.error "pil boom") "imgdata" "high" = "imgdata" := by
  refine ⟨?_, ?_, ?_⟩
  · exact (c8_compress_passthrough_and_fallback _ _ "imgdata" "medium").1
      (List.replicate 5 0) rfl (by simp [compressionThreshold])
  · exact (c8_compress_passthrough_and_fallback _ _ "imgdata" "low").2.1
      "bad base64" rfl
  · exact (c8_compress_passthrough_and_fallback _ _ "imgdata" "high").2.2
      (List.replicate 200000 0) "pil boom" rfl rfl

/-! ## Claim C4 -/

/-- C4: `get` returns the stored value exactly when an entry is present and
not expired (`now - created_at ≤ ttl`), updating `access_count`,
`last_accessed` and the hit counter; an absent key is a recorded miss; an
expired entry is deleted and is a recorded miss.  Consequently `set`
followed by an immediate `get` returns the stored value (for a nonnegative
effective TTL), and a `get` after the TTL has elapsed returns `none`
without any background sweep. -/
theorem c4_get_ttl_semantics {a : Type} (s : CacheState a) (key : String)
    (now : Int) :
    (dictGet s.cache key = none →
        s.get key now = (none, { s with misses := s.misses + 1 })) ∧
    (∀ e, dictGet s.cache key = some e →
        now - e.created_at > e.ttl_seconds →
        s.get key now =
          (none, { s with cache := dictDel s.cache key,
                          misses := s.misses + 1 })) ∧
    (∀ e, dictGet s.cache key = some e →
        now - e.created_at ≤ e.ttl_seconds →
        s.get key now =
          (e.value,
            { s with
              cache := dictSet s.cache key
                { e with access_count := e.access_count + 1,
                         last_accessed := now },
              hits := s.hits + 1 })) ∧
    (∀ (v : Option a) (ttl : Option Int), 0 ≤ pyTtl ttl s.default_ttl →
        ((s.set key v ttl now).get key now).1 = v) ∧
    (∀ (v : Option a) (ttl : Option Int) (now2 : Int),
        now2 - now > pyTtl ttl s.default_ttl →
        ((s.set key v ttl now).get key now2).1 = none) := by
  refine ⟨?_, ?_, ?_, ?_, ?_⟩
  · intro hmiss
    simp [CacheState.get, hmiss]
  · intro e hget hexp
    simp [CacheState.get, hget, isExpired, hexp]
  · intro e hget hfresh
    have hx : isExpired now e = false := by
      simp [isExpired]
      omega
    simp [CacheState.get, hget, hx]
  · intro v ttl httl
    have hget : dictGet ((s.set key v ttl now).cache) key =
        some (mkCacheEntry v now (pyTtl ttl s.default_ttl)) := by
      simp [CacheState.set]
      exact dictGet_dictSet_self _ key _
    simp only [CacheState.get, hget]
    split
    · next hcond =>
        exfalso
        simp [isExpired, mkCacheEntry] at hcond
        omega
    · rfl
  · intro v ttl now2 helapsed
    have hget : dictGet ((s.set key v ttl now).cache) key =
        some (mkCacheEntry v now (pyTtl ttl s.default_ttl)) := by
      simp [CacheState.set]
      exact dictGet_dictSet_self _ key _
    simp only [CacheState.get, hget]
    split
    · rfl
    · next hcond =>
        exfalso
        simp [isExpired, mkCacheEntry] at hcond
        omega

/-- Witness for C4 at concrete inputs: in a one-entry cache a fresh read
returns the stored value, and a set-then-get round trip returns the value
just stored while an elapsed-TTL read returns `none`. -/
theorem c4_get_ttl_witness :
    ((⟨[("k", mkCacheEntry (some 7) 0 10)], 60, 1000, 0, 0⟩ :
        CacheState Nat).get "k" 5).1 = some 7 ∧
    (((⟨[], 60, 1000, 0, 0⟩ : CacheState Nat).set "k" (some 9)
        (some 100) 0).get "k" 0).1 = some 9 ∧
    (((⟨[], 60, 1000, 0, 0⟩ : CacheState Nat).set "k" (some 9)
        (some 100) 0).get "k" 150).1 = none := by
  refine ⟨?_, ?_, ?_⟩
  · have h := (c4_get_ttl_semantics
        (⟨[("k", mkCacheEntry (some 7) 0 10)], 60, 1000, 0, 0⟩ :
          CacheState Nat) "k" 5).2.2.1
      (mkCacheEntry (some 7) 0 10) (by simp [dictGet]) (by decide)
    rw [h]
    rfl
  · exact (c4_get_ttl_semantics (⟨[], 60, 1000, 0, 0⟩ : CacheState Nat)
      "k" 0).2.2.2.1 (some 9) (some 100) (by decide)
  · exact (c4_get_ttl_semantics (⟨[], 60, 1000, 0, 0⟩ : CacheState Nat)
      "k" 0).2.2.2.2 (some 9) (some 100) 150 (by decide)

/-! ## Claim C9 -/

/-- C9 (implicit): a stored Python `None` is indistinguishable from absence
at the public interface — for an entry holding `None` that is present and
unexpired, `get` returns `None` while still counting a hit, and
`get_or_set` on that key invokes the factory again and re-stores its result
on every call, so caching a `None` value never takes effect. -/
theorem c9_none_value_never_cached {a : Type} (s : CacheState a)
    (key : String) (now : Int) (e : CacheEntry a)
    (factory : Unit → Option a) (ttl : Option Int)
    (hget : dictGet s.cache key = some e) (hval : e.value = none)
    (hfresh : isExpired now e = false) :
    (s.get key now).1 = none ∧
    (s.get key now).2.hits = s.hits + 1 ∧
    s.getOrSet key factory ttl now =
      (factory (), ((s.get key now).2).set key (factory ()) ttl now) := by
  have hg : s.get key now =
      (none,
        { s with
          cache := dictSet s.cache key
            { e with access_count := e.access_count + 1,
                     last_accessed := now },
          hits := s.hits + 1 }) := by
    simp [CacheState.get, hget, hfresh, hval]
  refine ⟨by rw [hg], by rw [hg], ?_⟩
  simp [CacheState.getOrSet, hg]

/-- Witness for C9: a one-entry cache holding `None` under key `"k"` — the
read misses the stored `None` (returning `none` yet counting a hit) and
`get_or_set` recomputes and re-stores. -/
theorem c9_none_value_witness :
    (((⟨[("k", mkCacheEntry none 0 10)], 60, 1000, 0, 0⟩ :
        CacheState Nat).get "k" 5).1 = none) ∧
    (((⟨[("k", mkCacheEntry none 0 10)], 60, 1000, 0, 0⟩ :
        CacheState Nat).get "k" 5).2.hits = 1) ∧
    ((⟨[("k", mkCacheEntry none 0 10)], 60, 1000, 0, 0⟩ :
        CacheState Nat).getOrSet "k" (fun _ => some 3) none 5).1 = some 3 := by
  have h := c9_none_value_never_cached
    (⟨[("k", mkCacheEntry none 0 10)], 60, 1000, 0, 0⟩ : CacheState Nat)
    "k" 5 (mkCacheEntry none 0 10) (fun _ => some 3) none
    (by simp [dictGet]) rfl (by decide)
  exact ⟨h.1, h.2.1, by rw [h.2.2]⟩

/-! ## Claim C3 -/

/-- C3: a task whose handler fails on every attempt is invoked exactly 4
times (initial attempt plus 3 retries); each re-enqueue increments
`retries`, records the error and demotes the tuple priority by exactly one
step, so the priorities across attempts are `p, p+1, p+2, p+3` — strictly
monotonically less urgent; after the fourth failure `handleFailure` drops
the task, and the failure branch touches only the failure metric. -/
theorem c3_retry_exhaustion {p : Type} (prio : Int) (tid : String)
    (t : QTask p) (msg : String) (q : QueueState p)
    (hfresh : t.retries = 0) :
    failTrace msg (prio, tid, t) =
      [(prio, tid, t),
       (prio + 1, tid, { t with retries := 1, error := some msg }),
       (prio + 2, tid, { t with retries := 2, error := some msg }),
       (prio + 3, tid, { t with retries := 3, error := some msg })] ∧
    (failTrace msg (prio, tid, t)).length = 4 ∧
    (failTrace msg (prio, tid, t)).map (fun e => e.1) =
      [prio, prio + 1, prio + 2, prio + 3] ∧
    List.Chain' (fun x y => x < y)
      ((failTrace msg (prio, tid, t)).map (fun e => e.1)) ∧
    handleFailure msg
      (prio + 3, tid, { t with retries := 3, error := some msg }) = none ∧
    failMetric q = { q with tasks_failed := q.tasks_failed + 1 } := by
  have htrace : failTrace msg (prio, tid, t) =
      [(prio, tid, t),
       (prio + 1, tid, { t with retries := 1, error := some msg }),
       (prio + 2, tid, { t with retries := 2, error := some msg }),
       (prio + 3, tid, { t with retries := 3, error := some msg })] := by
    rw [failTrace]
    simp only [hfresh]
    norm_num
    rw [failTrace]
    norm_num
    rw [failTrace]
    norm_num
    rw [failTrace]
    norm_num
    omega
  refine ⟨htrace, by rw [htrace]; rfl, by rw [htrace]; rfl, ?_, ?_, rfl⟩
  · rw [htrace]
    simp only [List.map_cons, List.map_nil, List.chain'_cons,
      List.chain'_singleton, and_true]
    omega
  · simp [handleFailure]

/-- Witness for C3: a fresh NORMAL-priority task over a unit payload —
exactly four attempts at priorities 2, 3, 4, 5 and then dropped. -/
theorem c3_retry_witness :
    failTrace "boom"
        ((2 : Int), "task_1",
          ({ id := "task_1", type := "vm_op", payload := (), priority := 2,
             submitted_at := "100.5", delay_ms := 0, retries := 0,
             error := none } : QTask Unit)) =
      [(2, "task_1",
          { id := "task_1", type := "vm_op", payload := (), priority := 2,
            submitted_at := "100.5", delay_ms := 0, retries := 0,
            error := none }),
       (3, "task_1",
          { id := "task_1", type := "vm_op", payload := (), priority := 2,
            submitted_at := "100.5", delay_ms := 0, retries := 1,
            error := some "boom" }),
       (4, "task_1",
          { id := "task_1", type := "vm_op", payload := (), priority := 2,
            submitted_at := "100.5", delay_ms := 0, retries := 2,
            error := some "boom" }),
       (5, "task_1",
          { id := "task_1", type := "vm_op", payload := (), priority := 2,
            submitted_at := "100.5", delay_ms := 0, retries := 3,
            error := some "boom" })] := by
  have h := c3_retry_exhaustion (p := Unit) 2 "task_1"
    { id := "task_1", type := "vm_op", payload := (), priority := 2,
      submitted_at := "100.5", delay_ms := 0, retries := 0, error := none }
    "boom" ⟨[], 0, 0, 0⟩ rfl
  rw [h.1]
  decide

/-! ## Claim C10 -/

/-- C10 (implicit): when the event data carries neither a truthy `"id"` nor
a truthy `"session_id"`, `submit_payment` skips the idempotency check and
the registry update entirely: every such call enqueues a new task and
returns a non-null task id, the registry is untouched, and an immediate
duplicate submission of the same event is enqueued again rather than
suppressed. -/
theorem c10_falsy_key_never_suppressed (s : PQState) (ed : PaymentEvent)
    (payment_type : String) (prio prio2 : TaskPriority)
    (pos pos2 : Nat) (ts ts2 addr addr2 : String)
    (hfalsy : strTruthy (pyOrStr ed.id ed.session_id) = false) :
    (submitPayment s payment_type ed prio pos ts addr).1 =
      some (taskIdString ts addr) ∧
    (submitPayment s payment_type ed prio pos ts addr).2.seen = s.seen ∧
    (submitPayment s payment_type ed prio pos ts addr).2.queue =
      s.queue ++ [(prio.val, taskIdString ts addr,
        { id := taskIdString ts addr, type := "payment_" ++ payment_type,
          payload := ed, priority := prio.val, submitted_at := ts,
          delay_ms := 0, retries := 0, error := none })] ∧
    (submitPayment (submitPayment s payment_type ed prio pos ts addr).2
        payment_type ed prio2 pos2 ts2 addr2).1 =
      some (taskIdString ts2 addr2) := by
  have hstep : ∀ (s1 : PQState) (pr : TaskPriority) (po : Nat)
      (t ad : String),
      submitPayment s1 payment_type ed pr po t ad =
        (some (taskIdString t ad),
          { toQueueState :=
              { queue := s1.queue ++ [(pr.val, taskIdString t ad,
                  { id := taskIdString t ad,
                    type := "payment_" ++ payment_type, payload := ed,
                    priority := pr.val, submitted_at := t, delay_ms := 0,
                    retries := 0, error := none })],
                tasks_submitted := s1.tasks_submitted + 1,
                tasks_completed := s1.tasks_completed,
                tasks_failed := s1.tasks_failed },
            seen := s1.seen }) := by
    intro s1 pr po t ad
    simp [submitPayment, hfalsy, PQState.submitQ, QueueState.submit,
      taskIdString]
  refine ⟨?_, ?_, ?_, ?_⟩
  · rw [hstep]
  · rw [hstep]
  · rw [hstep]
  · rw [hstep, hstep]

/-- Witness for C10: an event whose `"id"` is absent and whose
`"session_id"` is the empty string — both calls enqueue and return ids. -/
theorem c10_falsy_key_witness :
    (submitPayment ⟨⟨[], 0, 0, 0⟩, []⟩ "webhook"
        ⟨none, some ""⟩ .HIGH 0 "100.5" "7").1 = some "task_100.5_7" ∧
    (submitPayment (submitPayment ⟨⟨[], 0, 0, 0⟩, []⟩ "webhook"
        ⟨none, some ""⟩ .HIGH 0 "100.5" "7").2 "webhook"
        ⟨none, some ""⟩ .HIGH 0 "100.6" "8").1 = some "task_100.6_8" := by
  have h := c10_falsy_key_never_suppressed ⟨⟨[], 0, 0, 0⟩, []⟩
    ⟨none, some ""⟩ "webhook" .HIGH .HIGH 0 0 "100.5" "100.6" "7" "8"
    (by decide)
  exact ⟨h.1, h.2.2.2⟩

/-! ## Registry lemmas -/

theorem mem_setAdd_self {k : Type} [DecidableEq k] (pos : Nat) (key : k)
    (seen : List k) : key ∈ setAdd pos key seen := by
  by_cases h : key ∈ seen
  · simp [setAdd, h]
  · simp [setAdd, h]

theorem length_setAdd_of_not_mem {k : Type} [DecidableEq k] (pos : Nat)
    (key : k) (seen : List k) (h : key ∉ seen) :
    (setAdd pos key seen).length = seen.length + 1 := by
  simp [setAdd, h]
  omega

theorem registryAdd_no_overflow {k : Type} [DecidableEq k] (pos : Nat)
    (key : k) (seen : List k) (hnew : key ∉ seen)
    (hroom : seen.length < 10000) :
    registryAdd pos key seen = setAdd pos key seen := by
  have hlen := length_setAdd_of_not_mem pos key seen hnew
  simp only [registryAdd]
  rw [if_neg]
  omega

/-! ## Claim C1 -/

/-- C1: for a truthy correlation key `k` not yet in the (non-overflowing)
seen registry, two successive `submit_payment` calls with the same key
return a non-null task id the first time and `None` the second time;
exactly one task for `k` is enqueued across the two calls; and the first
call adds `k` to the registry strictly before enqueueing (the intermediate
`mark_processed` state already contains `k` while the queue is still
untouched, and the submit proceeds from that state). -/
theorem c1_idempotent_submit (s : PQState) (ed : PaymentEvent) (k : String)
    (payment_type : String) (prio prio2 : TaskPriority) (pos pos2 : Nat)
    (ts ts2 addr addr2 : String)
    (hkey : pyOrStr ed.id ed.session_id = some k) (hne : k ≠ "")
    (hnew : k ∉ s.seen) (hroom : s.seen.length < 10000) :
    submitPayment s payment_type ed prio pos ts addr =
      (some ((markProcessed pos k s).submitQ ("payment_" ++ payment_type)
          ed prio ts addr).1,
        ((markProcessed pos k s).submitQ ("payment_" ++ payment_type)
          ed prio ts addr).2) ∧
    k ∈ (markProcessed pos k s).seen ∧
    (markProcessed pos k s).queue = s.queue ∧
    (submitPayment s payment_type ed prio pos ts addr).1 =
      some (taskIdString ts addr) ∧
    (submitPayment s payment_type ed prio pos ts addr).2.queue =
      s.queue ++ [(prio.val, taskIdString ts addr,
        { id := taskIdString ts addr, type := "payment_" ++ payment_type,
          payload := ed, priority := prio.val, submitted_at := ts,
          delay_ms := 0, retries := 0, error := none })] ∧
    submitPayment (submitPayment s payment_type ed prio pos ts addr).2
        payment_type ed prio2 pos2 ts2 addr2 =
      (none, (submitPayment s payment_type ed prio pos ts addr).2) := by
  have htruthy : strTruthy (some k) = true := by
    simp [strTruthy, hne]
  have hmarkmem : k ∈ (markProcessed pos k s).seen := by
    simp only [markProcessed]
    rw [registryAdd_no_overflow pos k s.seen hnew hroom]
    exact mem_setAdd_self pos k s.seen
  have hproc1 : isProcessedO (some k) s = false := by
    simp [isProcessedO]
    exact hnew
  have hfirst : submitPayment s payment_type ed prio pos ts addr =
      (some ((markProcessed pos k s).submitQ ("payment_" ++ payment_type)
          ed prio ts addr).1,
        ((markProcessed pos k s).submitQ ("payment_" ++ payment_type)
          ed prio ts addr).2) := by
    simp [submitPayment, hkey, htruthy, hproc1, markProcessedO]
  have hseen2 : (submitPayment s payment_type ed prio pos ts addr).2.seen =
      (markProcessed pos k s).seen := by
    rw [hfirst]
    simp [PQState.submitQ]
  have hproc2 : isProcessedO (some k)
      (submitPayment s payment_type ed prio pos ts addr).2 = true := by
    simp [isProcessedO, hseen2]
    exact hmarkmem
  have hsecond : ∀ s2 : PQState, isProcessedO (some k) s2 = true →
      submitPayment s2 payment_type ed prio2 pos2 ts2 addr2 = (none, s2) := by
    intro s2 h2
    simp [submitPayment, hkey, htruthy, h2]
  refine ⟨hfirst, hmarkmem, rfl, by rw [hfirst]; rfl, ?_, ?_⟩
  · rw [hfirst]
    simp [PQState.submitQ, QueueState.submit, markProcessed]
  · exact hsecond _ hproc2

/-- Witness for C1: the key `"pay_123"` submitted twice into a fresh
payment queue — non-null id, then `None`, one enqueued task. -/
theorem c1_idempotent_witness :
    (submitPayment ⟨⟨[], 0, 0, 0⟩, []⟩ "checkout"
        ⟨some "pay_123", none⟩ .HIGH 0 "100.5" "7").1 =
      some "task_100.5_7" ∧
    (submitPayment (submitPayment ⟨⟨[], 0, 0, 0⟩, []⟩ "checkout"
        ⟨some "pay_123", none⟩ .HIGH 0 "100.5" "7").2 "checkout"
        ⟨some "pay_123", none⟩ .HIGH 0 "100.6" "8").1 = none := by
  have h := c1_idempotent_submit ⟨⟨[], 0, 0, 0⟩, []⟩
    ⟨some "pay_123", none⟩ "pay_123" "checkout" .HIGH .HIGH 0 0
    "100.5" "100.6" "7" "8" rfl (by decide) (by decide) (by decide)
  exact ⟨h.2.2.2.1, by rw [h.2.2.2.2.2]⟩

/-! ## Claim C2 -/

/-- C2 is refuted by the code: the tie-break among equal-priority tasks is
the `task_id` string built from the wall-clock timestamp and the CPython
address of the payload (line 45), not a monotonically increasing sequence
number.  Two tasks submitted in the same instant (equal
`datetime.utcnow().timestamp()` rendering, here `"100.5"`) with payload
addresses `9` and `8` are ordered by the address: the heap delivers the
second-submitted task first, violating FIFO among equal priorities.  This
contradicts the comment at lines 56-57 of async_queue.py
(`task_id ensures FIFO for same priority`). -/
theorem c2_same_instant_fifo_violation :
    ((⟨[], 0, 0, 0⟩ : QueueState Unit).submit "vm_op" () .NORMAL 0
        "100.5" "9").1 = "task_100.5_9" ∧
    (((⟨[], 0, 0, 0⟩ : QueueState Unit).submit "vm_op" () .NORMAL 0
        "100.5" "9").2.submit "vm_op" () .NORMAL 0 "100.5" "8").1 =
      "task_100.5_8" ∧
    (minEntry (((⟨[], 0, 0, 0⟩ : QueueState Unit).submit "vm_op" ()
        .NORMAL 0 "100.5" "9").2.submit "vm_op" () .NORMAL 0
        "100.5" "8").2.queue).map (fun e => e.2.1) =
      some "task_100.5_8" := by
  decide

/-! ## Claim C6 -/

/-- Registry contents after marking the keys `0, 1, …, 10000` as processed
in that order, under the possible CPython hash layout in which each newly
added key lands at the front of the set's iteration order (string hashing
is salted, so iteration order is unrelated to insertion order). -/
def frontRun : List Nat :=
  (List.range 10001).foldl (fun acc key => registryAdd 0 key acc) []

theorem frontRun_eq : frontRun = (List.range 5000).reverse := by
  have haux : ∀ n : Nat, n ≤ 10000 →
      (List.range n).foldl (fun acc key => registryAdd 0 key acc) [] =
        (List.range n).reverse := by
    intro n
    induction n with
    | zero => intro _; rfl
    | succ m ih =>
        intro h
        rw [List.range_succ, List.foldl_append, ih (by omega)]
        simp only [List.foldl_cons, List.foldl_nil]
        have hmem : m ∉ (List.range m).reverse := by
          simp
        have hset : setAdd 0 m (List.range m).reverse =
            m :: (List.range m).reverse := by
          simp [setAdd, hmem]
        have hlen : (m :: (List.range m).reverse).length = m + 1 := by
          simp
        simp only [registryAdd, hset]
        rw [if_neg (by rw [hlen]; omega), List.reverse_append]
        simp only [List.reverse_cons, List.reverse_nil, List.nil_append,
          List.cons_append]
  have hrev : ((List.range 10001).reverse : List Nat) =
      10000 :: (List.range 10000).reverse := by
    rw [show (10001 : Nat) = 10000 + 1 by norm_num, List.range_succ,
      List.reverse_append]
    simp only [List.reverse_cons, List.reverse_nil, List.nil_append,
      List.cons_append]
  have hstep : frontRun = registryAdd 0 10000 ((List.range 10000).reverse) := by
    show (List.range 10001).foldl (fun acc key => registryAdd 0 key acc) [] = _
    rw [show (10001 : Nat) = 10000 + 1 by norm_num, List.range_succ,
      List.foldl_append, haux 10000 (by omega)]
    simp only [List.foldl_cons, List.foldl_nil]
  have hmem : (10000 : Nat) ∉ (List.range 10000).reverse := by
    simp
  have hset : setAdd 0 10000 ((List.range 10000).reverse) =
      10000 :: (List.range 10000).reverse := by
    simp [setAdd, hmem]
  have hlen : (10000 :: (List.range 10000).reverse).length = 10001 := by
    simp
  rw [hstep]
  simp only [registryAdd, hset]
  rw [if_pos (by rw [hlen]; omega), hlen, ← hrev,
    show (10001 : Nat) - 5000 = (List.range 10001).length - 5000 by simp,
    ← List.reverse_take, List.take_range]
  norm_num

/-- C6 counterexample: run `mark_processed` on the 10,001 distinct keys
`0, …, 10000` in that order, with the (realisable) hash layout that places
every new key at the front of the set's iteration order.  The claim says
the resulting registry is exactly the 5,000 most recently added keys,
`(List.range 10001).drop 5001`; in fact the oldest key `0` is kept and the
newest key `10000` is evicted, so the claim is false. -/
theorem c6_oldest_half_refuted :
    0 ∈ frontRun ∧ 0 ∉ (List.range 10001).drop 5001 ∧
    10000 ∉ frontRun ∧ 10000 ∈ (List.range 10001).drop 5001 := by
  refine ⟨?_, ?_, ?_, ?_⟩
  · rw [frontRun_eq]
    simp
  · intro hmem
    obtain ⟨i, hm, heq⟩ := List.mem_drop_iff_getElem.mp hmem
    rw [List.getElem_range] at heq
    omega
  · rw [frontRun_eq]
    simp
  · refine List.mem_drop_iff_getElem.mpr ⟨4999, by simp, ?_⟩
    rw [List.getElem_range]

/-- C6 (amended): on overflow past 10,000 entries the registry is cut to
5,000 of its current keys — *which* 5,000 depends on the set's
hash-determined iteration order, not on insertion recency — so the registry
stays bounded by 10,000, every retained key was present (or is the key just
added), and an overflowing add from exactly 10,000 seen keys leaves exactly
5,000. -/
theorem c6_registry_bound (k : Type) [DecidableEq k] (pos : Nat) (key : k)
    (seen : List k) (hbound : seen.length ≤ 10000) :
    (registryAdd pos key seen).length ≤ 10000 ∧
    (∀ x ∈ registryAdd pos key seen, x = key ∨ x ∈ seen) ∧
    (seen.length = 10000 → key ∉ seen →
      (registryAdd pos key seen).length = 5000) := by
  have hsub : ∀ x ∈ setAdd pos key seen, x = key ∨ x ∈ seen := by
    intro x hx
    by_cases h : key ∈ seen
    · simp [setAdd, h] at hx
      right
      exact hx
    · simp [setAdd, h] at hx
      rcases hx with hx | hx | hx
      · right
        exact List.mem_of_mem_take hx
      · left
        exact hx
      · right
        exact List.mem_of_mem_drop hx
  refine ⟨?_, ?_, ?_⟩
  · by_cases h : key ∈ seen
    · simp only [registryAdd, setAdd, if_pos h]
      split
      · simp
        omega
      · exact hbound
    · have hlen := length_setAdd_of_not_mem pos key seen h
      simp only [registryAdd]
      split
      · simp
        omega
      · omega
  · intro x hx
    simp only [registryAdd] at hx
    split at hx
    · exact hsub x (List.mem_of_mem_drop hx)
    · exact hsub x hx
  · intro hfull hnot
    have hlen := length_setAdd_of_not_mem pos key seen hnot
    simp only [registryAdd]
    rw [if_pos (by omega)]
    simp
    omega

/-- Witness for the amended C6 theorem at a concrete input: adding key `3`
at front position to the two-element registry `[1, 2]`. -/
theorem c6_registry_bound_witness :
    (registryAdd 0 (3 : Nat) [1, 2]).length ≤ 10000 ∧
    (∀ x ∈ registryAdd 0 (3 : Nat) [1, 2], x = 3 ∨ x ∈ [1, 2]) := by
  have h := c6_registry_bound Nat 0 3 [1, 2] (by decide)
  exact ⟨h.1, h.2.1⟩

/-! ## Claim C5 -/

theorem toRemoveCount_pos (n : Nat) : 1 ≤ toRemoveCount n := by
  simp only [toRemoveCount]
  split
  · omega
  · omega

theorem toRemoveCount_le (n : Nat) (h : 1 ≤ n) : toRemoveCount n ≤ n := by
  have hd := Nat.div_le_self n 10
  simp only [toRemoveCount]
  split
  · omega
  · omega

theorem dictSet_length_le {v : Type} (d : List (String × v)) (k : String)
    (x : v) : (dictSet d k x).length ≤ d.length + 1 := by
  induction d with
  | nil => simp [dictSet]
  | cons hd tl ih =>
      obtain ⟨k0, v0⟩ := hd
      by_cases h : k0 = k
      · simp [dictSet, h]
      · simp only [dictSet, if_neg h, List.length_cons]
        omega

theorem keys_fst_inj {b : Type} (l : List (String × b))
    (h : (l.map Prod.fst).Nodup) :
    ∀ p ∈ l, ∀ q ∈ l, p.1 = q.1 → p = q := by
  induction l with
  | nil =>
      intro p hp
      cases hp
  | cons x tl ih =>
      simp only [List.map_cons, List.nodup_cons] at h
      intro p hp q hq heq
      rcases List.mem_cons.mp hp with rfl | hp2
      · rcases List.mem_cons.mp hq with rfl | hq2
        · rfl
        · exfalso
          exact h.1 (by rw [heq]; exact List.mem_map_of_mem Prod.fst hq2)
      · rcases List.mem_cons.mp hq with rfl | hq2
        · exfalso
          exact h.1 (by rw [← heq]; exact List.mem_map_of_mem Prod.fst hp2)
        · exact ih h.2 p hp2 q hq2 heq

theorem countP_not_eq {α : Type} (q : α → Bool) (l : List α) :
    List.countP (fun x => !(q x)) l = l.length - List.countP q l := by
  induction l with
  | nil => rfl
  | cons x tl ih =>
      have hle := List.countP_le_length (p := q) (l := tl)
      by_cases h : q x
      · simp [List.countP_cons, h, ih]
      · simp [List.countP_cons, h, ih]
        omega

theorem lruLe_trans {a : Type} : ∀ (x y z : String × CacheEntry a),
    lruLe x y = true → lruLe y z = true → lruLe x z = true := by
  intro x y z hxy hyz
  simp only [lruLe, decide_eq_true_eq] at *
  omega

theorem lruLe_total {a : Type} : ∀ (x y : String × CacheEntry a),
    (lruLe x y || lruLe y x) = true := by
  intro x y
  simp only [lruLe, Bool.or_eq_true, decide_eq_true_eq]
  omega

/-- Core specification of `_evict_lru` on a nonempty store with distinct
keys: it removes exactly `toRemoveCount` entries, the victims are exactly
that many keys, and every evicted entry was accessed no later than every
surviving entry. -/
theorem evictLru_spec {a : Type} (cache : List (String × CacheEntry a))
    (hne : cache ≠ []) (hnodup : (cache.map Prod.fst).Nodup) :
    (evictLru cache).length = cache.length - toRemoveCount cache.length ∧
    (victimKeys cache).length = toRemoveCount cache.length ∧
    (∀ p ∈ cache, p.1 ∈ victimKeys cache → ∀ q ∈ cache,
        q.1 ∉ victimKeys cache →
        p.2.last_accessed ≤ q.2.last_accessed) := by
  have hperm : (cache.mergeSort lruLe).Perm cache :=
    List.mergeSort_perm cache lruLe
  have hlen_sorted : (cache.mergeSort lruLe).length = cache.length :=
    hperm.length_eq
  have hkeysperm : ((cache.mergeSort lruLe).map Prod.fst).Perm
      (cache.map Prod.fst) := hperm.map Prod.fst
  have hnodup_sorted : ((cache.mergeSort lruLe).map Prod.fst).Nodup :=
    (hkeysperm.nodup_iff).mpr hnodup
  have hsorted : List.Pairwise (fun x y => lruLe x y = true)
      (cache.mergeSort lruLe) :=
    List.sorted_mergeSort lruLe_trans lruLe_total cache
  have hpos : 1 ≤ cache.length := by
    cases cache with
    | nil => exact absurd rfl hne
    | cons x tl => simp
  have hrle : toRemoveCount cache.length ≤ cache.length :=
    toRemoveCount_le cache.length hpos
  have hvk : victimKeys cache =
      (((cache.mergeSort lruLe).map Prod.fst).take
        (toRemoveCount cache.length)) := by
    rw [victimKeys, List.map_take]
  have hvlen : (victimKeys cache).length = toRemoveCount cache.length := by
    rw [hvk, List.length_take, List.length_map, hlen_sorted]
    omega
  have hvnodup : (victimKeys cache).Nodup := by
    rw [hvk]
    exact List.Nodup.sublist (List.take_sublist _ _) hnodup_sorted
  have hvsub : ∀ x ∈ victimKeys cache, x ∈ cache.map Prod.fst := by
    intro x hx
    rw [hvk] at hx
    exact (hkeysperm.mem_iff).mp (List.mem_of_mem_take hx)
  have hie : cache.isEmpty = false := by
    cases cache with
    | nil => exact absurd rfl hne
    | cons x tl => rfl
  have hevict : evictLru cache =
      cache.filter (fun p => !((victimKeys cache).contains p.1)) := by
    simp [evictLru, hie]
  have hcount : List.countP (fun p => (victimKeys cache).contains p.1) cache
      = toRemoveCount cache.length := by
    have h1 : List.countP (fun p => (victimKeys cache).contains p.1) cache =
        List.countP (fun k => (victimKeys cache).contains k)
          (cache.map Prod.fst) := by
      rw [List.countP_map]
      rfl
    have hfil : (cache.map Prod.fst).filter
        (fun k => (victimKeys cache).contains k) = List.filter
          (fun k => (victimKeys cache).contains k) (cache.map Prod.fst) := rfl
    have hpermv : ((cache.map Prod.fst).filter
        (fun k => (victimKeys cache).contains k)).Perm (victimKeys cache) := by
      rw [List.perm_ext_iff_of_nodup (List.Nodup.filter _ hnodup) hvnodup]
      intro x
      simp only [List.mem_filter]
      constructor
      · intro hx
        exact List.elem_iff.mp hx.2
      · intro hx
        exact ⟨hvsub x hx, List.elem_iff.mpr hx⟩
    rw [h1, List.countP_eq_length_filter, hpermv.length_eq, hvlen]
  refine ⟨?_, hvlen, ?_⟩
  · rw [hevict, ← List.countP_eq_length_filter, countP_not_eq, hcount]
  · intro p hp hpv q hq hqv
    obtain ⟨pe, hpet, hpee⟩ := List.mem_map.mp hpv
    have hpecache : pe ∈ cache := hperm.mem_iff.mp (List.mem_of_mem_take hpet)
    have hpe : pe = p := keys_fst_inj cache hnodup pe hpecache p hp hpee
    have hq_sorted : q ∈ cache.mergeSort lruLe := hperm.mem_iff.mpr hq
    have hq_drop : q ∈ (cache.mergeSort lruLe).drop
        (toRemoveCount cache.length) := by
      rcases List.mem_append.mp (by
        rw [List.take_append_drop]
        exact hq_sorted :
          q ∈ (cache.mergeSort lruLe).take (toRemoveCount cache.length) ++
            (cache.mergeSort lruLe).drop (toRemoveCount cache.length))
        with htk | hdp
      · exact absurd (List.mem_map_of_mem Prod.fst htk) hqv
      · exact hdp
    have hpair := (List.pairwise_append.mp (by
      rw [List.take_append_drop]
      exact hsorted :
        List.Pairwise (fun x y => lruLe x y = true)
          ((cache.mergeSort lruLe).take (toRemoveCount cache.length) ++
            (cache.mergeSort lruLe).drop (toRemoveCount cache.length)))).2.2
    have hle := hpair p (hpe ▸ hpet) q hq_drop
    simpa [lruLe, decide_eq_true_eq] using hle

/-- C5: when `set` is called on a cache holding exactly `max_size ≥ 1`
entries (with distinct keys), the eviction routine runs before the
insertion; it removes exactly `toRemoveCount max_size` entries (a tenth of
the store, minimum one, TTL never consulted); every evicted entry has
`last_accessed` no later than every surviving entry; and after the
insertion the store size is at most `max_size`. -/
theorem c5_capacity_eviction {a : Type} (s : CacheState a) (key : String)
    (v : Option a) (ttl : Option Int) (now : Int)
    (hfull : s.cache.length = s.max_size) (hpos : 1 ≤ s.max_size)
    (hnodup : (s.cache.map Prod.fst).Nodup) :
    (s.set key v ttl now).cache =
      dictSet (evictLru s.cache) key
        (mkCacheEntry v now (pyTtl ttl s.default_ttl)) ∧
    (victimKeys s.cache).length = toRemoveCount s.max_size ∧
    1 ≤ toRemoveCount s.max_size ∧
    (∀ p ∈ s.cache, p.1 ∈ victimKeys s.cache → ∀ q ∈ s.cache,
        q.1 ∉ victimKeys s.cache →
        p.2.last_accessed ≤ q.2.last_accessed) ∧
    (evictLru s.cache).length = s.max_size - toRemoveCount s.max_size ∧
    (s.set key v ttl now).cache.length ≤ s.max_size := by
  have hne : s.cache ≠ [] := by
    intro h
    rw [h] at hfull
    simp at hfull
    omega
  have hspec := evictLru_spec s.cache hne hnodup
  have hcond : s.max_size ≤ s.cache.length := by omega
  have hset : (s.set key v ttl now).cache =
      dictSet (evictLru s.cache) key
        (mkCacheEntry v now (pyTtl ttl s.default_ttl)) := by
    simp only [CacheState.set, if_pos hcond]
  refine ⟨hset, by rw [← hfull]; exact hspec.2.1, toRemoveCount_pos _,
    hspec.2.2, by rw [← hfull]; exact hspec.1, ?_⟩
  have hdlen := dictSet_length_le (evictLru s.cache) key
    (mkCacheEntry v now (pyTtl ttl s.default_ttl))
  have hrpos := toRemoveCount_pos s.cache.length
  have hrle := toRemoveCount_le s.cache.length (by omega)
  rw [hset]
  have hev : (evictLru s.cache).length =
      s.cache.length - toRemoveCount s.cache.length := hspec.1
  omega

/-- Witness for C5: a two-entry cache at capacity `max_size = 2`; the
least-recently-accessed entry `"old"` is the single victim and the store
stays within capacity after the insert. -/
theorem c5_capacity_witness :
    ((⟨[("old", ⟨some 1, 0, 60, 0, 10⟩), ("new", ⟨some 2, 0, 60, 0, 20⟩)],
        60, 2, 0, 0⟩ : CacheState Nat).set "k" (some 3) none 30).cache =
      dictSet (evictLru [("old", ⟨some 1, 0, 60, 0, 10⟩),
        ("new", ⟨some 2, 0, 60, 0, 20⟩)]) "k" (mkCacheEntry (some 3) 30 60) ∧
    ((⟨[("old", ⟨some 1, 0, 60, 0, 10⟩), ("new", ⟨some 2, 0, 60, 0, 20⟩)],
        60, 2, 0, 0⟩ : CacheState Nat).set "k" (some 3) none
          30).cache.length ≤ 2 := by
  have h := c5_capacity_eviction
    (⟨[("old", ⟨some 1, 0, 60, 0, 10⟩), ("new", ⟨some 2, 0, 60, 0, 20⟩)],
      60, 2, 0, 0⟩ : CacheState Nat) "k" (some 3) none 30 rfl (by decide)
    (by decide)
  exact ⟨h.1, h.2.2.2.2.2⟩

/-! ## Claim C7 -/

theorem countP_set_eq {α : Type} (p : α → Bool) :
    ∀ (l : List α) (i : Nat) (a b : α), l[i]? = some b →
      (if p b then 1 else 0) + List.countP p (l.set i a) =
        (if p a then 1 else 0) + List.countP p l := by
  intro l
  induction l with
  | nil =>
      intro i a b h
      simp at h
  | cons x tl ih =>
      intro i a b h
      cases i with
      | zero =>
          simp only [List.getElem?_cons_zero, Option.some_inj] at h
          subst h
          rw [List.set_cons_zero, List.countP_cons, List.countP_cons]
          omega
      | succ n =>
          simp only [List.getElem?_cons_succ] at h
          have hr := ih n a b h
          rw [List.set_cons_succ, List.countP_cons, List.countP_cons]
          omega

theorem numProcessing_eq_zero_of_done {p : Type} (ws : List (WStatus p))
    (hdone : ∀ w ∈ ws, w = WStatus.done) : numProcessing ws = 0 := by
  rw [numProcessing, List.countP_eq_zero]
  intro w hw
  rw [hdone w hw]
  simp [isProcW]

theorem numProcessing_eq_zero_of_check {p : Type} (ws : List (WStatus p))
    (hchk : ∀ w ∈ ws, w = WStatus.check) : numProcessing ws = 0 := by
  rw [numProcessing, List.countP_eq_zero]
  intro w hw
  rw [hchk w hw]
  simp [isProcW]

/-- Balance across one step: a begin label adds one processing worker, an
end label removes one, all other steps leave the count unchanged. -/
theorem step_balance {p : Type} [DecidableEq p] {s s1 : SysState p}
    {l : Label p} (h : SysStep s l s1) :
    (if isBegin l then 1 else 0) + numProcessing s.workers =
      (if isEnd l then 1 else 0) + numProcessing s1.workers := by
  cases h with
  | loop_run i hw hr =>
      have hc := countP_set_eq isProcW _ i WStatus.getting WStatus.check hw
      simp [isProcW] at hc
      simp [isBegin, isEnd, numProcessing]
      omega
  | loop_stop i hw hr =>
      have hc := countP_set_eq isProcW _ i WStatus.done WStatus.check hw
      simp [isProcW] at hc
      simp [isBegin, isEnd, numProcessing]
      omega
  | dequeue i e hw hq =>
      have hc := countP_set_eq isProcW _ i (WStatus.processing e)
        WStatus.getting hw
      simp [isProcW] at hc
      simp [isBegin, isEnd, numProcessing]
      omega
  | get_timeout i hw =>
      have hc := countP_set_eq isProcW _ i WStatus.check WStatus.getting hw
      simp [isProcW] at hc
      simp [isBegin, isEnd, numProcessing]
      omega
  | finish_ok i e hw =>
      have hc := countP_set_eq isProcW _ i WStatus.check
        (WStatus.processing e) hw
      simp [isProcW] at hc
      simp [isBegin, isEnd, numProcessing]
      omega
  | finish_fail i e msg hw =>
      have hc := countP_set_eq isProcW _ i WStatus.check
        (WStatus.processing e) hw
      simp [isProcW] at hc
      simp [isBegin, isEnd, numProcessing]
      omega
  | stop_call hc =>
      simp [isBegin, isEnd, numProcessing]
  | stop_ret hc hnr hall =>
      simp [isBegin, isEnd, numProcessing]

/-- Balance invariant of the worker-pool semantics: along any run, the
number of handler invocations begun equals the number ended plus the
change in the number of workers currently processing. -/
theorem steps_begin_end_balance {p : Type} [DecidableEq p]
    {s0 sF : SysState p} {ls : List (Label p)} (h : SysSteps s0 ls sF) :
    ls.countP isBegin + numProcessing s0.workers =
      ls.countP isEnd + numProcessing sF.workers := by
  induction h with
  | nil s => rfl
  | @cons s s1 s2 l ls hstep hrest ih =>
      have hs := step_balance hstep
      rw [List.countP_cons, List.countP_cons]
      omega

theorem no_step_after_stop_returned {p : Type} [DecidableEq p]
    {s : SysState p} {l : Label p} {s1 : SysState p}
    (hret : s.stopReturned = true) (hcall : s.stopCalled = true)
    (hdone : ∀ w ∈ s.workers, w = WStatus.done) : ¬ SysStep s l s1 := by
  intro hstep
  cases hstep with
  | loop_run i hw hr =>
      have := hdone _ (List.getElem?_mem hw)
      simp at this
  | loop_stop i hw hr =>
      have := hdone _ (List.getElem?_mem hw)
      simp at this
  | dequeue i e hw hq =>
      have := hdone _ (List.getElem?_mem hw)
      simp at this
  | get_timeout i hw =>
      have := hdone _ (List.getElem?_mem hw)
      simp at this
  | finish_ok i e hw =>
      have := hdone _ (List.getElem?_mem hw)
      simp at this
  | finish_fail i e msg hw =>
      have := hdone _ (List.getElem?_mem hw)
      simp at this
  | stop_call hc =>
      rw [hcall] at hc
      cases hc
  | stop_ret hc hnr hall =>
      rw [hret] at hnr
      cases hnr

theorem steps_after_stop_returned_nil {p : Type} [DecidableEq p]
    {s sF : SysState p} {ls : List (Label p)} (h : SysSteps s ls sF)
    (hret : s.stopReturned = true) (hcall : s.stopCalled = true)
    (hdone : ∀ w ∈ s.workers, w = WStatus.done) : ls = [] := by
  cases h with
  | nil => rfl
  | cons hstep hrest =>
      exact absurd hstep (no_step_after_stop_returned hret hcall hdone)

theorem sysSteps_append {p : Type} [DecidableEq p] :
    ∀ (ls1 : List (Label p)) {s0 sF : SysState p} {ls2 : List (Label p)},
      SysSteps s0 (ls1 ++ ls2) sF →
      ∃ mid, SysSteps s0 ls1 mid ∧ SysSteps mid ls2 sF := by
  intro ls1
  induction ls1 with
  | nil =>
      intro s0 sF ls2 h
      exact ⟨s0, SysSteps.nil s0, h⟩
  | cons l tl ih =>
      intro s0 sF ls2 h
      cases h with
      | cons hstep hrest =>
          obtain ⟨mid, h1, h2⟩ := ih hrest
          exact ⟨mid, SysSteps.cons hstep h1, h2⟩

/-- C7 (amended): along any run of the pool from workers at the top of the
loop, once `stop` returns, every handler invocation begun before the return
has ended before it (the begin and end counts balance, since the return is
only enabled when every worker has exited), and nothing at all happens
afterwards — in particular no handler invocation starts after `stop`
*returns*.  The original claim's stronger clause — that no handler starts
after `stop` is *called* — is refuted by `c7_start_after_stop_call_refuted`. -/
theorem c7_stop_graceful_drain {p : Type} [DecidableEq p]
    (s0 sF : SysState p) (ls1 ls2 : List (Label p))
    (hinit : ∀ w ∈ s0.workers, w = WStatus.check)
    (hrun : SysSteps s0 (ls1 ++ Label.stopReturn :: ls2) sF) :
    ls1.countP isBegin = ls1.countP isEnd ∧ ls2 = [] := by
  obtain ⟨mid, h1, h2⟩ := sysSteps_append ls1 hrun
  cases h2 with
  | cons hstep hrest =>
      cases hstep with
      | stop_ret hc hnr hall =>
          have hmid0 : numProcessing mid.workers = 0 :=
            numProcessing_eq_zero_of_done _ hall
          have hs00 : numProcessing s0.workers = 0 :=
            numProcessing_eq_zero_of_check _ hinit
          have hbal := steps_begin_end_balance h1
          have hnil : ls2 = [] :=
            steps_after_stop_returned_nil hrest rfl hc hall
          rw [hmid0, hs00] at hbal
          exact ⟨by omega, hnil⟩

/-- Witness for the amended C7 theorem: one worker, empty queue; `stop` is
called, the worker notices and exits, `stop` returns; zero handlers begun
and ended before the return, nothing after. -/
theorem c7_stop_graceful_witness :
    List.countP isBegin [Label.stopCall (p := Unit), Label.loopExit 0] =
      List.countP isEnd [Label.stopCall (p := Unit), Label.loopExit 0] ∧
    ([] : List (Label Unit)) = [] := by
  have hsteps : SysSteps
      (⟨true, [], [WStatus.check], false, false⟩ : SysState Unit)
      ([Label.stopCall, Label.loopExit 0] ++ Label.stopReturn :: [])
      ⟨false, [], [WStatus.done], true, true⟩ := by
    refine SysSteps.cons (SysStep.stop_call _ rfl) ?_
    refine SysSteps.cons (SysStep.loop_stop _ 0 rfl rfl) ?_
    refine SysSteps.cons (SysStep.stop_ret _ rfl rfl ?_) ?_
    · intro w hw
      simp at hw
      exact hw
    · exact SysSteps.nil _
  exact c7_stop_graceful_drain
    (⟨true, [], [WStatus.check], false, false⟩ : SysState Unit)
    ⟨false, [], [WStatus.done], true, true⟩
    [Label.stopCall, Label.loopExit 0] []
    (by intro w hw; simp at hw; exact hw) hsteps

/-- Formalisation of the refuted clause of C7 as stated: in every run of
the pool from idle workers, no handler invocation begins at a trace
position after a `stopCall`. -/
def c7NoBeginAfterStopCall : Prop :=
  ∀ (s0 sF : SysState Unit) (ls : List (Label Unit)),
    (∀ w ∈ s0.workers, w = WStatus.check) → SysSteps s0 ls sF →
    ∀ (j w : Nat) (e : QEntry Unit),
      ls[j]? = some (Label.handlerBegin w e) →
      ∀ i, i < j → ls[i]? ≠ some Label.stopCall

/-- A concrete demotion-free payment-style task used in the C7
counterexample trace. -/
def e0 : QEntry Unit :=
  (2, "task_100.5_9",
    { id := "task_100.5_9", type := "vm_op", payload := (), priority := 2,
      submitted_at := "100.5", delay_ms := 0, retries := 0, error := none })

/-- C7 counterexample: the claim "no handler invocation starts after
`stop()` is called" is false.  Concretely: one worker is blocked in
`queue.get()` on a queue holding one task; `stop()` runs and sets
`running = False`; the pending `get` then delivers the task and the worker
begins (and completes) the handler — a handler start strictly after the
stop call, in a run that afterwards drains and lets `stop` return. -/
theorem c7_start_after_stop_call_refuted : ¬ c7NoBeginAfterStopCall := by
  intro h
  have hsteps : SysSteps
      (⟨true, [e0], [WStatus.check], false, false⟩ : SysState Unit)
      [Label.loopEnter 0, Label.stopCall, Label.handlerBegin 0 e0,
        Label.handlerOk 0 e0, Label.loopExit 0, Label.stopReturn]
      ⟨false, [], [WStatus.done], true, true⟩ := by
    refine SysSteps.cons (SysStep.loop_run _ 0 rfl rfl) ?_
    refine SysSteps.cons (SysStep.stop_call _ rfl) ?_
    refine SysSteps.cons (SysStep.dequeue _ 0 e0 rfl rfl) ?_
    refine SysSteps.cons (SysStep.finish_ok _ 0 e0 rfl) ?_
    refine SysSteps.cons (SysStep.loop_stop _ 0 rfl rfl) ?_
    refine SysSteps.cons (SysStep.stop_ret _ rfl rfl ?_) ?_
    · intro w hw
      simp at hw
      exact hw
    · exact SysSteps.nil _
  exact h _ _ _ (by intro w hw; simp at hw; exact hw) hsteps
    2 0 e0 rfl 1 (by omega) rfl

end MousePlatform
